import Mathlib

/-!
# Verification of the SD Bullion scraper core (src/main.py)

Shallow embedding of the decision logic of the scraper: URL classification
(`validate_url`, `is_search_url`, `is_category_url`, `is_product_url`),
price parsing (`parse_price`), record construction for the listing path and
the product-page path, the dedup/budget orchestration state, and the
pagination cycle guard.

Python strings are modelled as `List Char` (wrapped in `String` at the
outer interfaces); Python's `in` on strings is `List.IsInfix`;
`urllib.parse.urlparse` is modelled by `urlparse` below, following the
CPython splitting order (scheme, netloc, fragment, query, params).
Python `float` values are modelled as exact rationals `ℚ`.
-/

/-! ## Python string primitives -/

/-- Python `str.lower` restricted to ASCII (all inputs of interest are ASCII). -/
def pyLower (c : Char) : Char := c.toLower

/-- Python `s.strip(a)` for a single strip character `a`. -/
def stripChar (a : Char) (l : List Char) : List Char :=
  ((l.dropWhile (fun c => c == a)).reverse.dropWhile (fun c => c == a)).reverse

/-- Python `s.rstrip(a)` for a single strip character `a`. -/
def rstripChar (a : Char) (l : List Char) : List Char :=
  (l.reverse.dropWhile (fun c => c == a)).reverse

/-- Python `s.strip()` (whitespace at both ends). -/
def pyStripWs (s : String) : String :=
  ⟨((s.data.dropWhile Char.isWhitespace).reverse.dropWhile Char.isWhitespace).reverse⟩

/-- Python `s.rsplit(sep, 1)[-1]`: the part after the last `'/'`, or the whole
string when it has no `'/'`. Used for `path.rsplit('/', 1)[-1]`. -/
def lastSeg (l : List Char) : List Char :=
  (l.reverse.takeWhile (fun c => c != '/')).reverse

/-- Python `s.split(a)` on a list of characters (keeps empty parts, like
`'a//b'.split('/') == ['a', '', 'b']`). -/
def splitOnChar (a : Char) : List Char → List (List Char)
  | [] => [[]]
  | c :: t =>
    if c = a then [] :: splitOnChar a t
    else
      match splitOnChar a t with
      | s :: rest => (c :: s) :: rest
      | [] => [[c]]

/-! ## Model of `urllib.parse.urlparse`

Follows CPython's `urlsplit`/`urlparse`: scheme split at the first `':'`
when the prefix is a valid scheme name; netloc after a leading `"//"` up to
the first of `'/'`, `'?'`, `'#'`; fragment at the first `'#'`; query at the
first `'?'`; then `urlparse`'s parameter split at a `';'` in the last path
segment. -/

structure UrlParts where
  scheme : List Char
  netloc : List Char
  path : List Char
  params : List Char
  query : List Char
  fragment : List Char

def schemeChar (c : Char) : Bool :=
  c.isAlpha || c.isDigit || c == '+' || c == '-' || c == '.'

def validSchemeName (l : List Char) : Bool :=
  match l with
  | [] => false
  | c :: _ => c.isAlpha && l.all schemeChar

/-- CPython: `i = url.find(':'); if i > 0 and url[:i] is a scheme name:
scheme = url[:i].lower(); rest = url[i+1:]`. -/
def splitScheme (u : List Char) : List Char × List Char :=
  match u.dropWhile (fun c => c != ':') with
  | _ :: rest =>
    if validSchemeName (u.takeWhile (fun c => c != ':')) then
      ((u.takeWhile (fun c => c != ':')).map pyLower, rest)
    else ([], u)
  | [] => ([], u)

def notNetDelim (c : Char) : Bool := c != '/' && c != '?' && c != '#'

/-- CPython: `if url[:2] == '//': netloc = url[2:delim]` where `delim` is the
first of `'/'`, `'?'`, `'#'`. -/
def splitNetloc (u : List Char) : List Char × List Char :=
  match u with
  | a :: b :: rest =>
    if a = '/' ∧ b = '/' then (rest.takeWhile notNetDelim, rest.dropWhile notNetDelim)
    else ([], u)
  | _ => ([], u)

/-- Split at the first occurrence of `a`: `(before, after)`, the separator
dropped; `(u, [])` when `a` does not occur. -/
def splitAtChar (a : Char) (u : List Char) : List Char × List Char :=
  (u.takeWhile (fun c => c != a), (u.dropWhile (fun c => c != a)).drop 1)

/-- Everything up to and including the last `'/'` (empty when there is none). -/
def upToLastSlash (l : List Char) : List Char :=
  (l.reverse.dropWhile (fun c => c != '/')).reverse

/-- CPython `urlparse`'s `_splitparams`: split the path at a `';'`, searching
only the last segment when the path contains a `'/'`. -/
def splitparams (p : List Char) : List Char × List Char :=
  if ';' ∈ p then
    if '/' ∈ p then
      match (lastSeg p).dropWhile (fun c => c != ';') with
      | _ :: after =>
        (upToLastSlash p ++ (lastSeg p).takeWhile (fun c => c != ';'), after)
      | [] => (p, [])
    else
      ((p.takeWhile (fun c => c != ';')), (p.dropWhile (fun c => c != ';')).drop 1)
  else (p, [])

def urlscheme (u : List Char) : List Char := (splitScheme u).1

def afterScheme (u : List Char) : List Char := (splitScheme u).2

def urlnetloc (u : List Char) : List Char := (splitNetloc (afterScheme u)).1

def afterNetloc (u : List Char) : List Char := (splitNetloc (afterScheme u)).2

def beforeFragment (u : List Char) : List Char := (splitAtChar '#' (afterNetloc u)).1

def urlfragment (u : List Char) : List Char := (splitAtChar '#' (afterNetloc u)).2

def preParamsPath (u : List Char) : List Char := (splitAtChar '?' (beforeFragment u)).1

def urlquery (u : List Char) : List Char := (splitAtChar '?' (beforeFragment u)).2

def urlparse (u : List Char) : UrlParts :=
  ⟨urlscheme u, urlnetloc u, (splitparams (preParamsPath u)).1,
   (splitparams (preParamsPath u)).2, urlquery u, urlfragment u⟩

/-- CPython `ParseResult.hostname`: the netloc after the last `'@'`, up to a
`':'` port separator, lowercased (`[...]` IPv6 hosts are not modelled; they
never compare equal to the site's hostnames). For an empty netloc the code's
`parsed.hostname or ''` yields the empty string, as here. -/
def pyHostname (netloc : List Char) : List Char :=
  (((netloc.reverse.takeWhile (fun c => c != '@')).reverse).takeWhile
      (fun c => c != ':')).map pyLower

/-! ## The classifier predicates (src/main.py lines 108-168) -/

def SDBULLION_HOST : String := "sdbullion.com"

def SKIP_PATH_SEGMENTS : List String :=
  ["/about/", "/shipping/", "/contact/", "/faq/", "/policies/", "/blog/",
   "/customer/", "/checkout/", "/cart/"]

/-- `is_search_url` (line 131): `'/catalogsearch/' in url or 'q=' in url`. -/
def is_search_url (url : String) : Prop :=
  "/catalogsearch/".data <:+: url.data ∨ "q=".data <:+: url.data

instance (url : String) : Decidable (is_search_url url) := by
  unfold is_search_url; infer_instance

/-- `validate_url` (line 161): scheme http/https and host sdbullion.com or
www.sdbullion.com. -/
def validate_url (url : String) : Prop :=
  ((urlparse url.data).scheme = "http".data ∨ (urlparse url.data).scheme = "https".data) ∧
  (pyHostname (urlparse url.data).netloc = "sdbullion.com".data ∨
   pyHostname (urlparse url.data).netloc = "www.sdbullion.com".data)

instance (url : String) : Decidable (validate_url url) := by
  unfold validate_url; infer_instance

def top_level_categories : List (List Char) :=
  ["gold".data, "silver".data, "platinum".data, "palladium".data, "copper".data,
   "on-sale".data, "new-arrivals".data, "specials".data]

def category_sub_keywords : List (List Char) :=
  ["coin".data, "bar".data, "round".data, "bullion".data, "mint".data,
   "eagle".data, "maple".data, "all-".data]

/-- `segments = [s for s in path.split('/') if s]` (line 144). -/
def segmentsOf (path : List Char) : List (List Char) :=
  (splitOnChar '/' path).filter (fun s => !s.isEmpty)

/-- The one- and two-segment category shapes of `is_category_url`
(lines 146-154). -/
def catShape (segs : List (List Char)) : Prop :=
  match segs with
  | [a] => a ∈ top_level_categories
  | [a, b] => a ∈ top_level_categories ∧ ∃ kw ∈ category_sub_keywords, kw <:+: b
  | _ => False

instance : (segs : List (List Char)) → Decidable (catShape segs)
  | [] => isFalse id
  | [a] => inferInstanceAs (Decidable (a ∈ top_level_categories))
  | [a, b] =>
    inferInstanceAs (Decidable (a ∈ top_level_categories ∧ ∃ kw ∈ category_sub_keywords, kw <:+: b))
  | _ :: _ :: _ :: _ => isFalse id

/-- `parsed.path.lower().strip('/')` as computed by `is_category_url`
(line 141). -/
def categoryPath (url : String) : List Char :=
  stripChar '/' ((urlparse url.data).path.map pyLower)

/-- `is_category_url` (lines 136-158). -/
def is_category_url (url : String) : Prop :=
  ¬ is_search_url url ∧
  (categoryPath url = [] ∨ catShape (segmentsOf (categoryPath url)) ∨
   "inventory".data <:+: categoryPath url)

instance (url : String) : Decidable (is_category_url url) := by
  unfold is_category_url; infer_instance

/-- `any(skip in url for skip in SKIP_PATH_SEGMENTS)` (line 114 and line 311). -/
def skipHit (u : List Char) : Prop := ∃ s ∈ SKIP_PATH_SEGMENTS, s.data <:+: u

instance (u : List Char) : Decidable (skipHit u) := by
  unfold skipHit; infer_instance

/-- `parsed.path.strip('/')` as computed by `is_product_url` (line 117). -/
def productPath (url : String) : List Char :=
  stripChar '/' (urlparse url.data).path

/-- `is_product_url` (lines 108-128): validated, not a search URL, not a
deny-listed informational path, non-empty path, no dot in the final path
segment, and not a category URL. -/
def is_product_url (url : String) : Prop :=
  validate_url url ∧ ¬ is_search_url url ∧ ¬ skipHit url.data ∧
  productPath url ≠ [] ∧ ¬ '.' ∈ lastSeg (productPath url) ∧
  ¬ is_category_url url

instance (url : String) : Decidable (is_product_url url) := by
  unfold is_product_url; infer_instance

/-! ## Routing and seeding (src/main.py lines 290-293, 522-530, 561-567) -/

inductive PageLabel where
  | SEARCH : PageLabel
  | CATEGORY : PageLabel
  | PRODUCT : PageLabel
deriving DecidableEq

/-- The label a URL receives, both in `default_handler` (lines 522-530) and
when seeding `initial_requests` (lines 561-567): search first, then category,
product as the fallback. There is no invalid outcome here. -/
def routeLabel (url : String) : PageLabel :=
  if is_search_url url then PageLabel.SEARCH
  else if is_category_url url then PageLabel.CATEGORY
  else PageLabel.PRODUCT

/-- The seeding filter for explicit start URLs (lines 290-293): kept only
when `validate_url` accepts them. -/
def acceptSeed (url : String) : Option String :=
  if validate_url url then some url else none

/-! ## Price parsing (src/main.py lines 95-105)

`parse_price` extracts the first run matching the regular expression
`\$?([\d,]+\.?\d*)`, strips the commas from group 1 and parses it as a
decimal number; `None` when the input is falsy, no run matches, or the
matched run has no digit left (Python's `float` raises `ValueError` on
`''` and `'.'`, caught and turned into `None`). Numeric values are exact
rationals. -/

def isDigitOrComma (c : Char) : Bool := c.isDigit || c == ','

/-- Group 1 of a match of `\$?([\d,]+\.?\d*)` anchored at the current
position: an optional `'$'`, then a non-empty greedy run of digits and
commas, then an optional `'.'` followed by a greedy run of digits. -/
def matchPriceAt (l : List Char) : Option (List Char) :=
  let l1 := match l with
    | '$' :: rest => rest
    | _ => l
  let run := l1.takeWhile isDigitOrComma
  if run.isEmpty then none
  else
    match l1.drop run.length with
    | '.' :: r2 => some (run ++ '.' :: r2.takeWhile Char.isDigit)
    | _ => some run

/-- `re.search`: the leftmost position where the pattern matches. -/
def searchPrice : List Char → Option (List Char)
  | [] => none
  | c :: t =>
    match matchPriceAt (c :: t) with
    | some g => some g
    | none => searchPrice t

def natOfDigits (l : List Char) : ℕ :=
  l.foldl (fun n c => 10 * n + (c.toNat - 48)) 0

/-- Python `float` on a comma-stripped group: digits with at most one dot,
read as the exact rational `digits / 10 ^ (number of fraction digits)`.
`ValueError` (modelled as `none`) exactly when no digit remains (`float`
rejects `''` and `'.'`). -/
def floatOfClean (s : List Char) : Option ℚ :=
  if s.any Char.isDigit then
    some ((natOfDigits (s.filter (fun c => c != '.')) : ℚ) /
      10 ^ ((s.dropWhile (fun c => c != '.')).drop 1).length)
  else none

/-- `parse_price` (lines 95-105). The argument is `none` for Python `None`;
`if not price_str` is falsy also for the empty string. -/
def parse_price (price : Option String) : Option ℚ :=
  match price with
  | none => none
  | some s =>
    if s = "" then none
    else
      match searchPrice s.data with
      | none => none
      | some g => floatOfClean (g.filter (fun c => c != ','))

/-! ## Emitted records

`ProductRecord` mirrors the dict pushed via `Actor.push_data` on both
emission paths (the `scrapedAt` clock read is omitted). -/

structure ProductRecord where
  url : String
  name : Option String
  price : Option String
  priceNumeric : Option ℚ
  imageUrl : Option String
  sku : Option String
  availability : Option String
  description : Option String

/-- The guard `price_text and '$' in str(price_text)` of the listing path
(lines 237 and 243). -/
def listingPriceOk (p : Option String) : Prop :=
  match p with
  | none => False
  | some t => t ≠ "" ∧ '$' ∈ t.data

instance : (p : Option String) → Decidable (listingPriceOk p)
  | none => isFalse id
  | some t => inferInstanceAs (Decidable (t ≠ "" ∧ '$' ∈ t.data))

/-- The record pushed by `extract_products_from_listing` for one listing
entry (lines 240-250): price carried over only under `listingPriceOk`,
numeric price derived by `parse_price` under the same guard, and
`sku`/`availability`/`description` left null. -/
def listingRecord (url name : String) (price image : Option String) : ProductRecord :=
  ⟨url, some name,
   if listingPriceOk price then price else none,
   if listingPriceOk price then parse_price price else none,
   image, none, none, none⟩

def AVAILABILITY_STATES : List String :=
  ["In Stock", "Out of Stock", "Pre-Order", "Sold Out", "Coming Soon", "Discontinued"]

/-- The availability scan of `product_handler` (lines 366-372): the first
state of `AVAILABILITY_STATES`, in list order, occurring in the page text;
`"Unknown"` when none does. -/
def availabilityOf (pageText : String) : String :=
  (AVAILABILITY_STATES.find? (fun st => decide (st.data <:+: pageText.data))).getD "Unknown"

/-- The price-selector loop of `product_handler` (lines 333-353): the texts
the candidate selectors produced, in selector priority order (`none` when a
selector matched nothing); the first truthy text containing `'$'` is kept,
stripped. -/
def findPriceText : List (Option String) → Option String
  | [] => none
  | none :: rest => findPriceText rest
  | some t :: rest =>
    if t ≠ "" ∧ '$' ∈ t.data then some (pyStripWs t) else findPriceText rest

/-- Python `x.strip() if x else None` (lines 416 and 420). -/
def optText (s : Option String) : Option String :=
  match s with
  | none => none
  | some t => if t = "" then none else some (pyStripWs t)

def MAX_DESCRIPTION_LENGTH : ℕ := 2000

/-- The description block (lines 396-412): `raw.strip()[:2000]` when the
element produced truthy text, else null. -/
def truncateDesc (d : Option String) : Option String :=
  match d with
  | none => none
  | some r => if r = "" then none else some ⟨(pyStripWs r).data.take MAX_DESCRIPTION_LENGTH⟩

/-- The record pushed by `product_handler` (lines 414-424): `name` is the
`h1` text, price text from the selector loop, numeric price via
`parse_price`, availability from the page-text scan (never null on this
path), sku and description stripped-or-null. -/
def productRecord (url name : String) (priceTexts : List (Option String))
    (image : Option String) (pageText : String) (sku desc : Option String) :
    ProductRecord :=
  ⟨url, optText (some name),
   findPriceText priceTexts,
   parse_price (findPriceText priceTexts),
   image, optText sku,
   some (availabilityOf pageText),
   truncateDesc desc⟩

/-! ## Run-level state: budget counter under concurrent handlers

The crawler runs request handlers as concurrently scheduled asyncio tasks
(`ConcurrencySettings` with `max_concurrency=5`, line 532). In
`product_handler` the budget check `products_scraped >= max_items`
(line 307) and the increment `products_scraped += 1` (line 426) are
separated by `await` points (`wait_for_selector`, `inner_text`,
`evaluate`, `push_data`), so other handler tasks run in between. A task is
modelled in two atomic phases: the budget check at entry, and the
emission (`Actor.push_data`) plus increment at the end. -/

inductive TaskPhase where
  | pending : TaskPhase
  | passed : TaskPhase
  | done : TaskPhase
deriving DecidableEq

structure OrchState where
  counter : ℕ
  emitted : ℕ
  tasks : List TaskPhase
deriving DecidableEq

/-- One scheduler step of the run: a task performs its next atomic phase. -/
inductive OrchStep (maxItems : ℕ) : OrchState → OrchState → Prop where
  | check (s : OrchState) (i : ℕ) (hp : s.tasks.get? i = some TaskPhase.pending)
      (hlt : s.counter < maxItems) :
      OrchStep maxItems s ⟨s.counter, s.emitted, s.tasks.set i TaskPhase.passed⟩
  | checkBlocked (s : OrchState) (i : ℕ) (hp : s.tasks.get? i = some TaskPhase.pending)
      (hge : maxItems ≤ s.counter) :
      OrchStep maxItems s ⟨s.counter, s.emitted, s.tasks.set i TaskPhase.done⟩
  | emit (s : OrchState) (i : ℕ) (hp : s.tasks.get? i = some TaskPhase.passed) :
      OrchStep maxItems s ⟨s.counter + 1, s.emitted + 1, s.tasks.set i TaskPhase.done⟩

/-- Reachability under interleaved scheduling of the handler tasks. -/
inductive OrchReach (maxItems : ℕ) : OrchState → OrchState → Prop where
  | refl (s : OrchState) : OrchReach maxItems s s
  | step (a b c : OrchState) : OrchReach maxItems a b → OrchStep maxItems b c →
      OrchReach maxItems a c

/-! ## Dedup on the visited-URL set (src/main.py lines 227-233, 310-320)

Both emission paths normalize the URL with `rstrip('/')`, test membership
in the shared `scraped_urls` set and add the URL with no `await` between
test and add, so under asyncio's cooperative scheduling the test-and-add
is one atomic step; the emission that may follow is keyed to that
test-and-add. An event is `(raw URL, whether the path reaches the
`push_data` call)` — in `product_handler` the `h1` wait can fail after
the URL was marked visited (lines 324-328), hence the flag. -/

def normalizeUrl (u : String) : String := ⟨rstripChar '/' u.data⟩

structure DedupState where
  visited : List String
  emitted : List String

def dedupStep (s : DedupState) (ev : String × Bool) : DedupState :=
  if normalizeUrl ev.1 ∈ s.visited then s
  else
    ⟨normalizeUrl ev.1 :: s.visited,
     if ev.2 then normalizeUrl ev.1 :: s.emitted else s.emitted⟩

def dedupRun (evs : List (String × Bool)) : DedupState :=
  evs.foldl dedupStep ⟨[], []⟩

/-! ## Fetch-volume cap (src/main.py line 553)

The crawler is constructed with `max_requests_per_crawl=max_items * 5`. -/

def maxRequestsPerCrawl (maxItems : ℕ) : ℕ := maxItems * 5

/-- Modelled from the spec: the enforcement of the fetch cap lives in the
crawlee library, not in src/ — "Total fetch volume is bounded externally (a
hard cap on total pages fetched …) to guarantee termination even if
pagination or listing extraction never converges." `crawlFetchCount` counts
the pages a run fetches when each processed page may enqueue arbitrarily
many further pages (`nextOf`), with the library refusing to fetch once the
cap is spent. -/
def crawlFetchCount (nextOf : String → List String) : ℕ → List String → ℕ
  | _, [] => 0
  | 0, _ :: _ => 0
  | cap + 1, p :: rest => 1 + crawlFetchCount nextOf cap (rest ++ nextOf p)

/-! ## Pagination resolution (src/main.py lines 476-481, 515-520)

In src/ the search and category handlers delegate pagination to crawlee's
`enqueue_links` with the selector list below; the resolution itself
(finding the control, resolving the href, refusing the current page) is
library behaviour. Modelled from the spec: "Looks for a 'next' pagination
control among a prioritized list of pagination selector patterns; resolves
a relative href against `baseUrl`; returns none if no such control exists
or if the resolved URL equals the current page's URL (cycle guard)." The
markup is abstracted as the list of (selector, href) controls it
contains. -/

def paginationSelectors : List String :=
  [".pages a.next", ".pages-items a", "a.action.next"]

def findControl (markup : List (String × String)) : Option String :=
  paginationSelectors.findSome? fun sel =>
    (markup.find? (fun ctl => ctl.1 == sel)).map (fun ctl => ctl.2)

/-- Modelled from the spec: an absolute href is kept, a relative one is
resolved against the base URL's origin. -/
def resolveHref (base href : String) : String :=
  if "http".data <+: href.data then href
  else ⟨(urlparse base.data).scheme ++ "://".data ++ (urlparse base.data).netloc ++ href.data⟩

def nextPage (markup : List (String × String)) (baseUrl : String) : Option String :=
  match findControl markup with
  | none => none
  | some href =>
    if resolveHref baseUrl href = baseUrl then none else some (resolveHref baseUrl href)

/-- What pagination adds to the work queue: nothing, or the one next page. -/
def enqueueNext (markup : List (String × String)) (baseUrl : String) : List String :=
  (nextPage markup baseUrl).toList

/-! ## List lemmas for the trailing-slash analysis -/

theorem takeWhile_app_all {p : Char → Bool} {l : List Char} (h : l.all p = true)
    (m : List Char) : (l ++ m).takeWhile p = l ++ m.takeWhile p := by
  induction l with
  | nil => rfl
  | cons a t ih =>
    simp only [List.all_cons, Bool.and_eq_true] at h
    simp [List.takeWhile_cons, h.1, ih h.2]

theorem dropWhile_app_all {p : Char → Bool} {l : List Char} (h : l.all p = true)
    (m : List Char) : (l ++ m).dropWhile p = m.dropWhile p := by
  induction l with
  | nil => rfl
  | cons a t ih =>
    simp only [List.all_cons, Bool.and_eq_true] at h
    simp [List.dropWhile_cons, h.1, ih h.2]

theorem takeWhile_app_not {p : Char → Bool} {l : List Char} (h : l.all p = false)
    (m : List Char) : (l ++ m).takeWhile p = l.takeWhile p := by
  induction l with
  | nil => simp at h
  | cons a t ih =>
    simp only [List.all_cons, Bool.and_eq_false_iff] at h
    rcases h with h | h
    · simp [List.takeWhile_cons, h]
    · cases ha : p a <;> simp [List.takeWhile_cons, ha]
      exact ih h

theorem dropWhile_app_not {p : Char → Bool} {l : List Char} (h : l.all p = false)
    (m : List Char) : (l ++ m).dropWhile p = l.dropWhile p ++ m := by
  induction l with
  | nil => simp at h
  | cons a t ih =>
    simp only [List.all_cons, Bool.and_eq_false_iff] at h
    rcases h with h | h
    · simp [List.dropWhile_cons, h]
    · cases ha : p a <;> simp [List.dropWhile_cons, ha]
      exact ih h

theorem takeWhile_all_eq {p : Char → Bool} {l : List Char} (h : l.all p = true) :
    l.takeWhile p = l := by
  have := takeWhile_app_all h ([] : List Char)
  simpa using this

theorem takeWhile_concat_neg {p : Char → Bool} {c : Char} (hc : p c = false)
    (l : List Char) : (l ++ [c]).takeWhile p = l.takeWhile p := by
  cases h : l.all p with
  | true => rw [takeWhile_app_all h, takeWhile_all_eq h]; simp [List.takeWhile_cons, hc]
  | false => exact takeWhile_app_not h [c]

theorem dropWhile_concat_neg {p : Char → Bool} {c : Char} (hc : p c = false)
    (l : List Char) : (l ++ [c]).dropWhile p = l.dropWhile p ++ [c] := by
  cases h : l.all p with
  | true =>
    rw [dropWhile_app_all h, List.dropWhile_eq_nil_iff.2 (List.all_eq_true.1 h)]
    simp [List.dropWhile_cons, hc]
  | false => exact dropWhile_app_not h [c]

theorem all_false_of_mem {p : Char → Bool} {l : List Char} {a : Char} (ha : a ∈ l)
    (hpa : p a = false) : l.all p = false := by
  cases h : l.all p with
  | true => rw [List.all_eq_true.1 h a ha] at hpa; cases hpa
  | false => rfl

/-- A non-empty pattern is a substring of `l ++ [c]` exactly when it is a
substring of `l` or a suffix of `l ++ [c]`. -/
theorem infix_concat_iff {n l : List Char} {c : Char} :
    n <:+: l ++ [c] ↔ n <:+: l ∨ n <:+ l ++ [c] := by
  constructor
  · intro h
    have h1 : n.reverse <:+: c :: l.reverse := by
      have := List.reverse_infix.2 h
      simpa using this
    rcases List.infix_cons_iff.1 h1 with h2 | h2
    · right
      have : n.reverse <+: (l ++ [c]).reverse := by simpa using h2
      exact List.reverse_prefix.1 this
    · left
      exact List.reverse_infix.1 h2
  · rintro (h | h)
    · exact h.trans ⟨[], [c], by simp⟩
    · exact h.isInfix

theorem suffix_concat_same {w l : List Char} {c : Char} :
    w ++ [c] <:+ l ++ [c] ↔ w <:+ l := by
  constructor
  · intro h
    have h1 : c :: w.reverse <+: c :: l.reverse := by
      have := List.reverse_prefix.2 h
      simpa using this
    have h2 : w.reverse <+: l.reverse := (List.cons_prefix_cons.1 h1).2
    exact List.reverse_prefix.1 h2
  · intro h
    rcases h with ⟨s, hs⟩
    exact ⟨s, by rw [← hs]; simp⟩

theorem stripChar_concat_slash (l : List Char) :
    stripChar '/' (l ++ ['/']) = stripChar '/' l := by
  unfold stripChar
  cases h : l.all (fun c => c == '/') with
  | true =>
    rw [dropWhile_app_all h, List.dropWhile_eq_nil_iff.2 (List.all_eq_true.1 h)]
    simp [List.dropWhile_cons]
  | false =>
    rw [dropWhile_app_not h]
    simp [List.dropWhile_cons]

/-! ## Stability of `urlparse` under appending a trailing slash -/

theorem takeWhile_subset (p : Char → Bool) (l : List Char) : l.takeWhile p ⊆ l :=
  (List.takeWhile_sublist p).subset

theorem dropWhile_subset (p : Char → Bool) (l : List Char) : l.dropWhile p ⊆ l :=
  (List.dropWhile_sublist p).subset

theorem afterScheme_subset (u : List Char) : afterScheme u ⊆ u := by
  intro x hx
  unfold afterScheme splitScheme at hx
  cases hdu : u.dropWhile (fun c => c != ':') with
  | nil =>
    rw [hdu] at hx
    exact hx
  | cons d rest =>
    rw [hdu] at hx
    by_cases hv : validSchemeName (u.takeWhile (fun c => c != ':'))
    · simp only [hv, if_true] at hx
      have hx2 : x ∈ u.dropWhile (fun c => c != ':') := by
        rw [hdu]; exact List.mem_cons_of_mem d hx
      exact dropWhile_subset _ u hx2
    · simp only [hv, if_false] at hx
      simpa using hx

theorem afterNetloc_subset (u : List Char) : afterNetloc u ⊆ afterScheme u := by
  intro x hx
  unfold afterNetloc splitNetloc at hx
  cases hr : afterScheme u with
  | nil => rw [hr] at hx; exact hx
  | cons a t =>
    cases t with
    | nil => rw [hr] at hx; exact hx
    | cons b rest =>
      rw [hr] at hx
      by_cases hab : a = '/' ∧ b = '/'
      · simp [hab.1, hab.2] at hx
        have hx2 : x ∈ rest := dropWhile_subset _ rest hx
        exact List.mem_cons_of_mem a (List.mem_cons_of_mem b hx2)
      · simp [if_neg hab] at hx
        simpa using hx

theorem preParamsPath_subset (u : List Char) : preParamsPath u ⊆ u := by
  intro x hx
  have h1 : x ∈ beforeFragment u := takeWhile_subset _ _ hx
  have h2 : x ∈ afterNetloc u := takeWhile_subset _ _ h1
  exact afterScheme_subset u (afterNetloc_subset u h2)

theorem scheme_concat (u : List Char) :
    urlscheme (u ++ ['/']) = urlscheme u ∧
    afterScheme (u ++ ['/']) = afterScheme u ++ ['/'] := by
  unfold urlscheme afterScheme splitScheme
  cases h : u.all (fun c => c != ':') with
  | true =>
    have hd : u.dropWhile (fun c => c != ':') = [] :=
      List.dropWhile_eq_nil_iff.2 (fun x hx => List.all_eq_true.1 h x hx)
    have hd2 : (u ++ ['/']).dropWhile (fun c => c != ':') = [] := by
      apply List.dropWhile_eq_nil_iff.2
      intro x hx
      rcases List.mem_append.1 hx with hx | hx
      · exact List.all_eq_true.1 h x hx
      · simp only [List.mem_singleton] at hx; subst hx; rfl
    rw [hd, hd2]
    exact ⟨rfl, rfl⟩
  | false =>
    have ht := takeWhile_app_not (p := fun c => c != ':') h ['/']
    cases hdu : u.dropWhile (fun c => c != ':') with
    | nil =>
      exfalso
      have h2 : u.all (fun c => c != ':') = true :=
        List.all_eq_true.2 (List.dropWhile_eq_nil_iff.1 hdu)
      rw [h] at h2; cases h2
    | cons d rest =>
      have hd : (u ++ ['/']).dropWhile (fun c => c != ':') = d :: (rest ++ ['/']) := by
        rw [dropWhile_app_not h, hdu]; rfl
      rw [hd, ht]
      by_cases hv : validSchemeName (u.takeWhile (fun c => c != ':'))
      · simp [hv]
      · simp [hv]

theorem netloc_concat {r : List Char} (h : r ≠ ['/']) :
    (splitNetloc (r ++ ['/'])).1 = (splitNetloc r).1 ∧
    (splitNetloc (r ++ ['/'])).2 = (splitNetloc r).2 ++ ['/'] := by
  match r with
  | [] => exact ⟨rfl, rfl⟩
  | [a] =>
    have ha : a ≠ '/' := fun e => h (by rw [e])
    simp [splitNetloc, ha]
  | a :: b :: t =>
    by_cases hab : a = '/' ∧ b = '/'
    · simp only [List.cons_append, splitNetloc, if_pos hab]
      exact ⟨takeWhile_concat_neg rfl t, dropWhile_concat_neg rfl t⟩
    · simp [splitNetloc, hab]

theorem splitAtChar_concat_not_mem {a c : Char} {l : List Char} (h : a ∉ l)
    (hac : (c != a) = true) :
    splitAtChar a (l ++ [c]) = (l ++ [c], []) ∧ splitAtChar a l = (l, []) := by
  have hall : l.all (fun x => x != a) = true :=
    List.all_eq_true.2 (fun x hx => by
      have hxa : x ≠ a := fun e => h (e ▸ hx)
      simpa using hxa)
  have hall2 : (l ++ [c]).all (fun x => x != a) = true := by
    rw [List.all_append]
    simp only [hall, List.all_cons, List.all_nil, hac, Bool.and_true, Bool.true_and]
  constructor
  · unfold splitAtChar
    rw [takeWhile_all_eq hall2,
      List.dropWhile_eq_nil_iff.2 (fun x hx => List.all_eq_true.1 hall2 x hx)]
    rfl
  · unfold splitAtChar
    rw [takeWhile_all_eq hall,
      List.dropWhile_eq_nil_iff.2 (fun x hx => List.all_eq_true.1 hall x hx)]
    rfl

theorem splitAtChar_concat_mem {a : Char} {l m : List Char} (h : a ∈ l) :
    (splitAtChar a (l ++ m)).1 = (splitAtChar a l).1 ∧
    (splitAtChar a (l ++ m)).2 = (splitAtChar a l).2 ++ m := by
  have hall : l.all (fun x => x != a) = false := all_false_of_mem h (by simp)
  unfold splitAtChar
  refine ⟨by simp [takeWhile_app_not hall], ?_⟩
  rw [dropWhile_app_not hall]
  cases hd : l.dropWhile (fun x => x != a) with
  | nil =>
    exfalso
    have h2 : l.all (fun x => x != a) = true :=
      List.all_eq_true.2 (List.dropWhile_eq_nil_iff.1 hd)
    rw [hall] at h2; cases h2
  | cons d t => simp

theorem splitparams_no_semi {p : List Char} (h : ';' ∉ p) : splitparams p = (p, []) := by
  unfold splitparams
  rw [if_neg h]

/-- Appending a trailing slash to a URL with no `';'` leaves the scheme and
netloc unchanged and leaves the path unchanged up to `strip('/')` (also
after lowercasing). -/
theorem parse_concat_slash (u : List Char) (hsemi : ';' ∉ u) :
    urlscheme (u ++ ['/']) = urlscheme u ∧
    urlnetloc (u ++ ['/']) = urlnetloc u ∧
    stripChar '/' (urlparse (u ++ ['/'])).path = stripChar '/' (urlparse u).path ∧
    stripChar '/' ((urlparse (u ++ ['/'])).path.map pyLower) =
      stripChar '/' ((urlparse u).path.map pyLower) := by
  obtain ⟨hs1, hs2⟩ := scheme_concat u
  by_cases hr : afterScheme u = ['/']
  · have hv : afterScheme (u ++ ['/']) = ['/', '/'] := by rw [hs2, hr]; rfl
    refine ⟨hs1, ?_, ?_, ?_⟩
    · show (splitNetloc (afterScheme (u ++ ['/']))).1 = (splitNetloc (afterScheme u)).1
      rw [hv, hr]; rfl
    · show stripChar '/'
          (splitparams (splitAtChar '?' (splitAtChar '#'
            ((splitNetloc (afterScheme (u ++ ['/']))).2)).1).1).1 =
        stripChar '/'
          (splitparams (splitAtChar '?' (splitAtChar '#'
            ((splitNetloc (afterScheme u)).2)).1).1).1
      rw [hv, hr]; decide
    · show stripChar '/'
          ((splitparams (splitAtChar '?' (splitAtChar '#'
            ((splitNetloc (afterScheme (u ++ ['/']))).2)).1).1).1.map pyLower) =
        stripChar '/'
          ((splitparams (splitAtChar '?' (splitAtChar '#'
            ((splitNetloc (afterScheme u)).2)).1).1).1.map pyLower)
      rw [hv, hr]; decide
  · have hn := netloc_concat hr
    have hnl : urlnetloc (u ++ ['/']) = urlnetloc u := by
      show (splitNetloc (afterScheme (u ++ ['/']))).1 = (splitNetloc (afterScheme u)).1
      rw [hs2]; exact hn.1
    have han : afterNetloc (u ++ ['/']) = afterNetloc u ++ ['/'] := by
      show (splitNetloc (afterScheme (u ++ ['/']))).2 = (splitNetloc (afterScheme u)).2 ++ ['/']
      rw [hs2]; exact hn.2
    refine ⟨hs1, hnl, ?_⟩
    by_cases hf : '#' ∈ afterNetloc u
    · have hbf : beforeFragment (u ++ ['/']) = beforeFragment u := by
        show (splitAtChar '#' (afterNetloc (u ++ ['/']))).1 = (splitAtChar '#' (afterNetloc u)).1
        rw [han]
        exact (splitAtChar_concat_mem (m := ['/']) hf).1
      have hpath : (urlparse (u ++ ['/'])).path = (urlparse u).path := by
        show (splitparams (splitAtChar '?' (beforeFragment (u ++ ['/']))).1).1 =
          (splitparams (splitAtChar '?' (beforeFragment u)).1).1
        rw [hbf]
      rw [hpath]; exact ⟨rfl, rfl⟩
    · have hsp := splitAtChar_concat_not_mem (c := '/') hf rfl
      have hbf : beforeFragment (u ++ ['/']) = beforeFragment u ++ ['/'] := by
        show (splitAtChar '#' (afterNetloc (u ++ ['/']))).1 = (splitAtChar '#' (afterNetloc u)).1 ++ ['/']
        rw [han, hsp.1, hsp.2]
      by_cases hq : '?' ∈ beforeFragment u
      · have hpp : preParamsPath (u ++ ['/']) = preParamsPath u := by
          show (splitAtChar '?' (beforeFragment (u ++ ['/']))).1 = (splitAtChar '?' (beforeFragment u)).1
          rw [hbf]
          exact (splitAtChar_concat_mem (m := ['/']) hq).1
        have hpath : (urlparse (u ++ ['/'])).path = (urlparse u).path := by
          show (splitparams (preParamsPath (u ++ ['/']))).1 = (splitparams (preParamsPath u)).1
          rw [hpp]
        rw [hpath]; exact ⟨rfl, rfl⟩
      · have hsq := splitAtChar_concat_not_mem (c := '/') hq rfl
        have hpp : preParamsPath (u ++ ['/']) = preParamsPath u ++ ['/'] := by
          show (splitAtChar '?' (beforeFragment (u ++ ['/']))).1 = (splitAtChar '?' (beforeFragment u)).1 ++ ['/']
          rw [hbf, hsq.1, hsq.2]
        have hsem1 : ';' ∉ preParamsPath u := fun hm => hsemi (preParamsPath_subset u hm)
        have hsem2 : ';' ∉ preParamsPath u ++ ['/'] := by
          intro hm
          rcases List.mem_append.1 hm with hm | hm
          · exact hsem1 hm
          · simp at hm
        have hpath1 : (urlparse (u ++ ['/'])).path = preParamsPath u ++ ['/'] := by
          show (splitparams (preParamsPath (u ++ ['/']))).1 = _
          rw [hpp, splitparams_no_semi hsem2]
        have hpath2 : (urlparse u).path = preParamsPath u := by
          show (splitparams (preParamsPath u)).1 = _
          rw [splitparams_no_semi hsem1]
        rw [hpath1, hpath2]
        refine ⟨stripChar_concat_slash _, ?_⟩
        rw [List.map_append]
        show stripChar '/' ((preParamsPath u).map pyLower ++ ['/']) = _
        exact stripChar_concat_slash _

/-! ## Substring checks under a trailing slash -/

theorem data_append_slash (u : String) : (u ++ "/").data = u.data ++ ['/'] := by
  rw [String.data_append]

theorem not_qeq_suffix (u : List Char) : ¬ ("q=".data <:+ u ++ ['/']) := by
  intro h
  have h1 : ['=', 'q'] <+: '/' :: u.reverse := by
    have h0 := List.reverse_prefix.2 h
    simp only [List.reverse_append] at h0
    exact h0
  have h2 := (List.cons_prefix_cons.1 h1).1
  exact absurd h2 (by decide)

/-- A pattern ending in `'/'` is a substring of `u ++ ['/']` exactly when it
is one of `u`, provided `u` does not end in the pattern minus its final
slash. -/
theorem skip_infix_concat {s u w : List Char} (hsw : s = w ++ ['/'])
    (hns : ¬ (w <:+ u)) : s <:+: u ++ ['/'] ↔ s <:+: u := by
  constructor
  · intro h
    rcases infix_concat_iff.1 h with h | h
    · exact h
    · exfalso
      apply hns
      rw [hsw] at h
      exact suffix_concat_same.1 h
  · intro h
    exact h.trans ⟨[], ['/'], by simp⟩

theorem is_search_url_concat {u : String}
    (hcat : ¬ ("/catalogsearch".data <:+ u.data)) :
    is_search_url (u ++ "/") ↔ is_search_url u := by
  unfold is_search_url
  rw [data_append_slash]
  constructor
  · rintro (h | h)
    · exact Or.inl ((skip_infix_concat rfl hcat).1 h)
    · rcases infix_concat_iff.1 h with h | h
      · exact Or.inr h
      · exact absurd h (not_qeq_suffix u.data)
  · rintro (h | h)
    · exact Or.inl (h.trans ⟨[], ['/'], by simp⟩)
    · exact Or.inr (h.trans ⟨[], ['/'], by simp⟩)

theorem validate_url_concat {u : String} (hsemi : ';' ∉ u.data) :
    validate_url (u ++ "/") ↔ validate_url u := by
  unfold validate_url
  rw [data_append_slash]
  obtain ⟨h1, h2, _, _⟩ := parse_concat_slash u.data hsemi
  show ((urlscheme (u.data ++ ['/']) = "http".data ∨
        urlscheme (u.data ++ ['/']) = "https".data) ∧
      (pyHostname (urlnetloc (u.data ++ ['/'])) = "sdbullion.com".data ∨
       pyHostname (urlnetloc (u.data ++ ['/'])) = "www.sdbullion.com".data)) ↔
    ((urlscheme u.data = "http".data ∨ urlscheme u.data = "https".data) ∧
      (pyHostname (urlnetloc u.data) = "sdbullion.com".data ∨
       pyHostname (urlnetloc u.data) = "www.sdbullion.com".data))
  rw [h1, h2]

theorem paths_concat {u : String} (hsemi : ';' ∉ u.data) :
    categoryPath (u ++ "/") = categoryPath u ∧ productPath (u ++ "/") = productPath u := by
  obtain ⟨_, _, h3, h4⟩ := parse_concat_slash u.data hsemi
  unfold categoryPath productPath
  rw [data_append_slash]
  exact ⟨h4, h3⟩

theorem is_category_url_concat {u : String} (hsemi : ';' ∉ u.data)
    (hcat : ¬ ("/catalogsearch".data <:+ u.data)) :
    is_category_url (u ++ "/") ↔ is_category_url u := by
  unfold is_category_url
  rw [is_search_url_concat hcat, (paths_concat hsemi).1]

theorem skipHit_concat {u : List Char}
    (h1 : ¬ ("/about".data <:+ u)) (h2 : ¬ ("/shipping".data <:+ u))
    (h3 : ¬ ("/contact".data <:+ u)) (h4 : ¬ ("/faq".data <:+ u))
    (h5 : ¬ ("/policies".data <:+ u)) (h6 : ¬ ("/blog".data <:+ u))
    (h7 : ¬ ("/customer".data <:+ u)) (h8 : ¬ ("/checkout".data <:+ u))
    (h9 : ¬ ("/cart".data <:+ u)) :
    skipHit (u ++ ['/']) ↔ skipHit u := by
  unfold skipHit SKIP_PATH_SEGMENTS
  constructor
  · rintro ⟨s, hm, hi⟩
    simp only [List.mem_cons, List.not_mem_nil, or_false] at hm
    rcases hm with rfl | rfl | rfl | rfl | rfl | rfl | rfl | rfl | rfl
    · exact ⟨_, by simp, (skip_infix_concat rfl h1).1 hi⟩
    · exact ⟨_, by simp, (skip_infix_concat rfl h2).1 hi⟩
    · exact ⟨_, by simp, (skip_infix_concat rfl h3).1 hi⟩
    · exact ⟨_, by simp, (skip_infix_concat rfl h4).1 hi⟩
    · exact ⟨_, by simp, (skip_infix_concat rfl h5).1 hi⟩
    · exact ⟨_, by simp, (skip_infix_concat rfl h6).1 hi⟩
    · exact ⟨_, by simp, (skip_infix_concat rfl h7).1 hi⟩
    · exact ⟨_, by simp, (skip_infix_concat rfl h8).1 hi⟩
    · exact ⟨_, by simp, (skip_infix_concat rfl h9).1 hi⟩
  · rintro ⟨s, hm, hi⟩
    exact ⟨s, hm, hi.trans ⟨[], ['/'], by simp⟩⟩

/-- The suffixes whose completion by a trailing slash changes one of the raw
substring tests of the classifier: `'/catalogsearch/' in url` and the
`SKIP_PATH_SEGMENTS` tests. -/
def slashSensitiveSuffixes : List String :=
  ["/catalogsearch", "/about", "/shipping", "/contact", "/faq", "/policies",
   "/blog", "/customer", "/checkout", "/cart"]

/-! ## Helper lemmas for the record invariants -/

theorem mem_dropWhile_of_neg {p : Char → Bool} {c : Char} {l : List Char}
    (hc : p c = false) (h : c ∈ l) : c ∈ l.dropWhile p := by
  have hsplit : c ∈ l.takeWhile p ++ l.dropWhile p := by
    rw [List.takeWhile_append_dropWhile p l]; exact h
  rcases List.mem_append.1 hsplit with h1 | h1
  · have h2 := List.mem_takeWhile_imp h1
    rw [hc] at h2; cases h2
  · exact h1

theorem mem_pyStripWs {c : Char} {s : String} (hc : c.isWhitespace = false)
    (h : c ∈ s.data) : c ∈ (pyStripWs s).data := by
  unfold pyStripWs
  have h1 : c ∈ s.data.dropWhile Char.isWhitespace := mem_dropWhile_of_neg hc h
  have h2 : c ∈ (s.data.dropWhile Char.isWhitespace).reverse := List.mem_reverse.2 h1
  have h3 := mem_dropWhile_of_neg hc h2
  exact List.mem_reverse.2 h3

theorem findPriceText_dollar :
    ∀ {pts : List (Option String)} {t : String},
      findPriceText pts = some t → '$' ∈ t.data
  | [], t, h => by cases h
  | none :: rest, t, h => by
    unfold findPriceText at h
    exact findPriceText_dollar h
  | some x :: rest, t, h => by
    by_cases hx : x ≠ "" ∧ '$' ∈ x.data
    · unfold findPriceText at h
      rw [if_pos hx] at h
      cases h
      exact mem_pyStripWs rfl hx.2
    · unfold findPriceText at h
      rw [if_neg hx] at h
      exact findPriceText_dollar h

theorem find?_append_of_none {α : Type} (p : α → Bool) (pre rest : List α)
    (h : ∀ x ∈ pre, p x = false) : (pre ++ rest).find? p = rest.find? p := by
  induction pre with
  | nil => rfl
  | cons a t ih =>
    rw [List.cons_append, List.find?_cons_of_neg _ (by simp [h a (List.mem_cons_self a t)])]
    exact ih fun x hx => h x (List.mem_cons_of_mem a hx)

theorem availabilityOf_spec (t : String) :
    (availabilityOf t ∈ AVAILABILITY_STATES ∧ (availabilityOf t).data <:+: t.data) ∨
    (availabilityOf t = "Unknown" ∧ ∀ st ∈ AVAILABILITY_STATES, ¬ (st.data <:+: t.data)) := by
  unfold availabilityOf
  cases hf : AVAILABILITY_STATES.find? (fun st => decide (st.data <:+: t.data)) with
  | none =>
    right
    refine ⟨rfl, fun st hst hinf => ?_⟩
    have h := List.find?_eq_none.1 hf st hst
    simp only [decide_eq_true_eq] at h
    exact h hinf
  | some st =>
    left
    have hmem := List.mem_of_find?_eq_some hf
    have hpred := List.find?_some hf
    simp only [decide_eq_true_eq] at hpred
    exact ⟨hmem, hpred⟩

theorem availabilityOf_first (t : String) (pre : List String) (st : String)
    (post : List String) (heq : AVAILABILITY_STATES = pre ++ st :: post)
    (hmatch : st.data <:+: t.data)
    (hpre : ∀ st' ∈ pre, ¬ (st'.data <:+: t.data)) : availabilityOf t = st := by
  unfold availabilityOf
  rw [heq, find?_append_of_none _ pre (st :: post)
        (fun x hx => by simpa using hpre x hx),
      List.find?_cons_of_pos post (by simpa using hmatch)]
  rfl

theorem dedup_invariant (evs : List (String × Bool)) :
    ∀ s : DedupState, s.emitted.Nodup → (∀ x ∈ s.emitted, x ∈ s.visited) →
      (evs.foldl dedupStep s).emitted.Nodup ∧
      ∀ x ∈ (evs.foldl dedupStep s).emitted, x ∈ (evs.foldl dedupStep s).visited := by
  induction evs with
  | nil => exact fun s h1 h2 => ⟨h1, h2⟩
  | cons e rest ih =>
    intro s h1 h2
    apply ih
    · unfold dedupStep
      by_cases hm : normalizeUrl e.1 ∈ s.visited
      · rw [if_pos hm]; exact h1
      · rw [if_neg hm]
        show (if e.2 then normalizeUrl e.1 :: s.emitted else s.emitted).Nodup
        by_cases he : e.2 = true
        · rw [if_pos he]
          exact List.nodup_cons.2 ⟨fun hmem => hm (h2 _ hmem), h1⟩
        · rw [if_neg he]; exact h1
    · unfold dedupStep
      by_cases hm : normalizeUrl e.1 ∈ s.visited
      · rw [if_pos hm]; exact h2
      · rw [if_neg hm]
        intro x hx
        show x ∈ normalizeUrl e.1 :: s.visited
        by_cases he : e.2 = true
        · rw [if_pos he] at hx
          rcases List.mem_cons.1 hx with rfl | hx
          · exact List.mem_cons_self _ _
          · exact List.mem_cons_of_mem _ (h2 x hx)
        · rw [if_neg he] at hx
          exact List.mem_cons_of_mem _ (h2 x hx)

/-! ## The claims -/

/-- C1 (code_bug): with `max_items = 1` and two pending product-handler
tasks on distinct unvisited product URLs, the interleaved scheduler reaches
a state where two records have been pushed and `products_scraped = 2 > 1`:
both tasks pass the budget check of src/main.py line 307 before either
reaches the increment at line 426, because `await` points separate the two.
The claimed invariant `itemsScraped <= max_items` is therefore violated by
the code under its own concurrency settings (lines 532-536), while the spec
explicitly requires increment-and-check to be atomic. -/
theorem budget_overshoot_reachable :
    ∃ s : OrchState,
      OrchReach 1 ⟨0, 0, [TaskPhase.pending, TaskPhase.pending]⟩ s ∧
      s.emitted = 2 ∧ 1 < s.counter := by
  refine ⟨⟨2, 2, [TaskPhase.done, TaskPhase.done]⟩, ?_, rfl, by decide⟩
  have t1 : OrchStep 1 ⟨0, 0, [TaskPhase.pending, TaskPhase.pending]⟩
      ⟨0, 0, [TaskPhase.passed, TaskPhase.pending]⟩ :=
    OrchStep.check _ 0 rfl (by decide)
  have t2 : OrchStep 1 ⟨0, 0, [TaskPhase.passed, TaskPhase.pending]⟩
      ⟨0, 0, [TaskPhase.passed, TaskPhase.passed]⟩ :=
    OrchStep.check _ 1 rfl (by decide)
  have t3 : OrchStep 1 ⟨0, 0, [TaskPhase.passed, TaskPhase.passed]⟩
      ⟨1, 1, [TaskPhase.done, TaskPhase.passed]⟩ :=
    OrchStep.emit _ 0 rfl
  have t4 : OrchStep 1 ⟨1, 1, [TaskPhase.done, TaskPhase.passed]⟩
      ⟨2, 2, [TaskPhase.done, TaskPhase.done]⟩ :=
    OrchStep.emit _ 1 rfl
  exact OrchReach.step _ _ _
    (OrchReach.step _ _ _
      (OrchReach.step _ _ _
        (OrchReach.step _ _ _ (OrchReach.refl _) t1) t2) t3) t4

/-- C2 (counterexample): classification is not invariant under a trailing
slash. `https://sdbullion.com/about` is classified a product page (the
deny-list test `'/about/' in url` does not fire without the trailing
slash), while `https://sdbullion.com/about/` is excluded. -/
theorem slash_classification_counterexample :
    is_product_url "https://sdbullion.com/about" ∧
    ¬ is_product_url ("https://sdbullion.com/about" ++ "/") ∧
    ¬ skipHit "https://sdbullion.com/about".data ∧
    skipHit ("https://sdbullion.com/about" ++ "/").data :=
  ⟨by decide, by decide, by decide, by decide⟩

/-- C2 (amended): classification is invariant under a trailing slash for
every URL that does not end in `/catalogsearch` or in a deny-listed segment
name without its closing slash (`/about`, `/shipping`, …), and whose text
carries no `';'` (CPython's `urlparse` parameter split). Under these
conditions `validate_url`, `is_search_url`, `is_category_url` and
`is_product_url` agree on `u` and `u ++ "/"`. -/
theorem classification_slash_invariant (u : String)
    (hsuf : ∀ w ∈ slashSensitiveSuffixes, ¬ (w.data <:+ u.data))
    (hsemi : ';' ∉ u.data) :
    (validate_url (u ++ "/") ↔ validate_url u) ∧
    (is_search_url (u ++ "/") ↔ is_search_url u) ∧
    (is_category_url (u ++ "/") ↔ is_category_url u) ∧
    (is_product_url (u ++ "/") ↔ is_product_url u) := by
  have hcat := hsuf "/catalogsearch" (by simp [slashSensitiveSuffixes])
  have h1 := hsuf "/about" (by simp [slashSensitiveSuffixes])
  have h2 := hsuf "/shipping" (by simp [slashSensitiveSuffixes])
  have h3 := hsuf "/contact" (by simp [slashSensitiveSuffixes])
  have h4 := hsuf "/faq" (by simp [slashSensitiveSuffixes])
  have h5 := hsuf "/policies" (by simp [slashSensitiveSuffixes])
  have h6 := hsuf "/blog" (by simp [slashSensitiveSuffixes])
  have h7 := hsuf "/customer" (by simp [slashSensitiveSuffixes])
  have h8 := hsuf "/checkout" (by simp [slashSensitiveSuffixes])
  have h9 := hsuf "/cart" (by simp [slashSensitiveSuffixes])
  refine ⟨validate_url_concat hsemi, is_search_url_concat hcat,
    is_category_url_concat hsemi hcat, ?_⟩
  unfold is_product_url
  rw [validate_url_concat hsemi, is_search_url_concat hcat,
    is_category_url_concat hsemi hcat, data_append_slash,
    skipHit_concat h1 h2 h3 h4 h5 h6 h7 h8 h9, (paths_concat hsemi).2]

/-- C2 (witness): the invariance theorem applied to a concrete category
URL. -/
theorem classification_slash_invariant_witness :
    (validate_url ("https://sdbullion.com/silver" ++ "/") ↔
      validate_url "https://sdbullion.com/silver") ∧
    (is_search_url ("https://sdbullion.com/silver" ++ "/") ↔
      is_search_url "https://sdbullion.com/silver") ∧
    (is_category_url ("https://sdbullion.com/silver" ++ "/") ↔
      is_category_url "https://sdbullion.com/silver") ∧
    (is_product_url ("https://sdbullion.com/silver" ++ "/") ↔
      is_product_url "https://sdbullion.com/silver") :=
  classification_slash_invariant "https://sdbullion.com/silver" (by decide) (by decide)

/-- C3 (counterexample): rejection of off-site URLs is not applied before
the search and category rules. `default_handler` (src/main.py lines
522-530) and the seeding label assignment (lines 561-567) consult
`is_search_url` first, and `is_search_url` performs no host check: a URL on
a foreign host containing `/catalogsearch/` is routed `SEARCH` even though
`validate_url` rejects it. -/
theorem offsite_search_route_counterexample :
    ¬ validate_url "https://evil.com/catalogsearch/result/?q=x" ∧
    routeLabel "https://evil.com/catalogsearch/result/?q=x" = PageLabel.SEARCH :=
  ⟨by decide, by decide⟩

/-- C3 (amended): validation is enforced where the code applies it — at
seeding, where an explicit start URL failing `validate_url` is dropped, and
inside `is_product_url`, whose first conjunct is `validate_url` — so an
invalid URL is never accepted as a seed and never classified a product.
The routing of `default_handler` itself performs no validity check. -/
theorem invalid_url_never_product (u : String) (h : ¬ validate_url u) :
    acceptSeed u = none ∧ ¬ is_product_url u := by
  refine ⟨?_, fun hp => h hp.1⟩
  unfold acceptSeed
  rw [if_neg h]

/-- C3 (witness): the amended theorem at a concrete off-site URL. -/
theorem invalid_url_never_product_witness :
    acceptSeed "http://example.org/x" = none ∧ ¬ is_product_url "http://example.org/x" :=
  invalid_url_never_product "http://example.org/x" (by decide)

/-- C4: `parse_price` maps `"$5,120.96"` to the number `5120.96`, maps
`None` and the empty string to `None`, maps text with no matching numeral
(`"Contact us"`) to `None`, and a matched run that fails numeric parsing
(`"$,,"`, whose group strips to the empty string) also yields `None`
instead of an error; on every input it totally returns a number or
`None`. -/
theorem parse_price_spec :
    parse_price (some "$5,120.96") = some (5120.96 : ℚ) ∧
    parse_price none = none ∧
    parse_price (some "") = none ∧
    parse_price (some "Contact us") = none ∧
    parse_price (some "$,,") = none ∧
    ∀ s : Option String, parse_price s = none ∨ ∃ q, parse_price s = some q := by
  refine ⟨?_, rfl, by decide, by decide, by decide, ?_⟩
  · have h : parse_price (some "$5,120.96") =
        some ((natOfDigits "512096".data : ℚ) / 10 ^ 2) := rfl
    have h2 : natOfDigits "512096".data = 512096 := by decide
    rw [h, h2]
    norm_num
  · intro s
    cases h : parse_price s with
    | none => exact Or.inl rfl
    | some q => exact Or.inr ⟨q, rfl⟩

/-- C5: on both emission paths the numeric price is non-null only when the
raw price text is non-null and contains the `'$'` currency marker, and it
always equals `parse_price` of that raw text — it is derived from no other
source. -/
theorem price_derivation (url name purl pname : String)
    (price image img2 sku desc : Option String) (pts : List (Option String))
    (pageText : String) :
    ((listingRecord url name price image).priceNumeric ≠ none →
      ∃ t, (listingRecord url name price image).price = some t ∧ '$' ∈ t.data ∧
        (listingRecord url name price image).priceNumeric = parse_price (some t)) ∧
    ((productRecord purl pname pts img2 pageText sku desc).priceNumeric ≠ none →
      ∃ t, (productRecord purl pname pts img2 pageText sku desc).price = some t ∧
        '$' ∈ t.data ∧
        (productRecord purl pname pts img2 pageText sku desc).priceNumeric =
          parse_price (some t)) := by
  constructor
  · intro hne
    by_cases hc : listingPriceOk price
    · cases price with
      | none => exact absurd hc id
      | some t =>
        refine ⟨t, ?_, hc.2, ?_⟩
        · show (if listingPriceOk (some t) then some t else none) = some t
          rw [if_pos hc]
        · show (if listingPriceOk (some t) then parse_price (some t) else none) =
            parse_price (some t)
          rw [if_pos hc]
    · exfalso
      apply hne
      show (if listingPriceOk price then parse_price price else none) = none
      rw [if_neg hc]
  · intro hne
    have hf : findPriceText pts ≠ none := by
      intro he
      apply hne
      show parse_price (findPriceText pts) = none
      rw [he]
      rfl
    cases hft : findPriceText pts with
    | none => exact absurd hft hf
    | some t =>
      refine ⟨t, hft, findPriceText_dollar hft, ?_⟩
      show parse_price (findPriceText pts) = parse_price (some t)
      rw [hft]

/-- C6 (counterexample): a record emitted by the listing path carries a null
availability field (src/main.py line 247), so the availability of an
emitted record is not always a vocabulary phrase or `"Unknown"`. -/
theorem listing_availability_null_counterexample :
    (listingRecord "https://sdbullion.com/x" "Coin" (some "$5.00") none).availability
      = none := rfl

/-- C6 (amended): on the product-page path the availability field is never
null: it is the first phrase of `AVAILABILITY_STATES`, in the fixed priority
order, occurring in the page text, and `"Unknown"` when none occurs.
Listing-path records always carry a null availability. -/
theorem availability_vocabulary (purl pname : String) (pts : List (Option String))
    (img : Option String) (pageText : String) (sku desc : Option String)
    (lurl lname : String) (lprice limg : Option String) :
    (productRecord purl pname pts img pageText sku desc).availability =
      some (availabilityOf pageText) ∧
    ((availabilityOf pageText ∈ AVAILABILITY_STATES ∧
        (availabilityOf pageText).data <:+: pageText.data) ∨
      (availabilityOf pageText = "Unknown" ∧
        ∀ st ∈ AVAILABILITY_STATES, ¬ (st.data <:+: pageText.data))) ∧
    (∀ pre st post, AVAILABILITY_STATES = pre ++ st :: post →
      st.data <:+: pageText.data →
      (∀ st' ∈ pre, ¬ (st'.data <:+: pageText.data)) →
      availabilityOf pageText = st) ∧
    (listingRecord lurl lname lprice limg).availability = none :=
  ⟨rfl, availabilityOf_spec pageText,
   fun pre st post heq hm hp => availabilityOf_first pageText pre st post heq hm hp,
   rfl⟩

/-- C7: at most one record is emitted per normalized
(trailing-slash-stripped) URL in a run: both paths test and extend the
shared visited set atomically before pushing, so the emitted multiset is
duplicate-free, and processing a URL whose normal form is already visited
changes nothing. -/
theorem dedup_at_most_once (evs : List (String × Bool)) (u raw : String) (b : Bool) :
    (dedupRun evs).emitted.count u ≤ 1 ∧
    (normalizeUrl raw ∈ (dedupRun evs).visited →
      dedupStep (dedupRun evs) (raw, b) = dedupRun evs) := by
  constructor
  · have h := dedup_invariant evs ⟨[], []⟩ List.nodup_nil (by intro x hx; cases hx)
    exact List.nodup_iff_count_le_one.1 h.1 u
  · intro hmem
    unfold dedupStep
    rw [if_pos hmem]

/-- C8: the pagination resolver yields no next page when the markup has no
"next" control among the prioritized selectors, and when the resolved next
URL equals the current page's URL (cycle guard); in both cases nothing is
enqueued, so a page whose only pagination link points back to itself is
never enqueued again. -/
theorem pagination_cycle_guard (markup : List (String × String)) (base : String) :
    (findControl markup = none →
      nextPage markup base = none ∧ enqueueNext markup base = []) ∧
    (∀ href, findControl markup = some href → resolveHref base href = base →
      nextPage markup base = none ∧ enqueueNext markup base = []) := by
  constructor
  · intro h
    unfold enqueueNext nextPage
    rw [h]
    exact ⟨rfl, rfl⟩
  · intro href h1 h2
    unfold enqueueNext nextPage
    rw [h1]
    show ((if resolveHref base href = base then none
        else some (resolveHref base href)) = none) ∧
      ((if resolveHref base href = base then (none : Option String)
        else some (resolveHref base href)).toList = [])
    rw [if_pos h2]
    exact ⟨rfl, rfl⟩

/-- C9 (counterexample): the fetch cap passed to the crawler is
`max_items * 5` (src/main.py line 553) — it is a function of the item
budget, not independent of it. -/
theorem fetch_cap_depends_on_budget :
    maxRequestsPerCrawl 1 = 5 ∧ maxRequestsPerCrawl 2 = 10 ∧
    maxRequestsPerCrawl 1 ≠ maxRequestsPerCrawl 2 :=
  ⟨rfl, rfl, by decide⟩

/-- C9 (amended): every run is bounded by a hard cap on the pages fetched —
`max_requests_per_crawl = max_items * 5` — so for every fixed budget the
fetch volume is finite (at most `5 * max_items`) even when pagination keeps
producing new targets; but the cap is proportional to `max_items`, not
independent of it. -/
theorem fetch_volume_bounded (nextOf : String → List String) (queue : List String)
    (m : ℕ) : crawlFetchCount nextOf (maxRequestsPerCrawl m) queue ≤ 5 * m := by
  have h : ∀ cap q, crawlFetchCount nextOf cap q ≤ cap := by
    intro cap
    induction cap with
    | zero => intro q; cases q <;> simp [crawlFetchCount]
    | succ n ih =>
      intro q
      cases q with
      | nil => simp [crawlFetchCount]
      | cons p rest =>
        have h2 := ih (rest ++ nextOf p)
        simp only [crawlFetchCount]
        omega
  calc crawlFetchCount nextOf (maxRequestsPerCrawl m) queue
      ≤ maxRequestsPerCrawl m := h _ _
    _ = 5 * m := Nat.mul_comm m 5

/-- C10: the three classifier predicates are pairwise mutually exclusive:
`is_category_url` returns false on every search URL (its first conjunct is
the negation), and `is_product_url` returns false on every search or
category URL (its second and last conjuncts are the negations), so every
URL receives at most one label. -/
theorem classifier_mutual_exclusion (u : String) :
    (is_search_url u → ¬ is_category_url u ∧ ¬ is_product_url u) ∧
    (is_category_url u → ¬ is_product_url u) :=
  ⟨fun hs => ⟨fun hc => hc.1 hs, fun hp => hp.2.1 hs⟩,
   fun hc hp => hp.2.2.2.2.2 hc⟩
